import Mathlib

/-!
Verification development for the Polar-Image-Inspector repository.

The repository decodes a WAMOS-II marine-radar capture (a text header followed
by a binary sample payload) into a typed header plus a 2-D sample matrix, and
re-projects that matrix into a raster carrying the header as embedded metadata.

This file gives a shallow embedding of the pipeline implemented by
`src/Wamos2/polar_image.py` (class `PolarImage`) and the PNG metadata path of
`src/PolarImageInspector.py`.  Bytes are modelled as natural numbers, byte
buffers as `List ℕ`, Python strings as `String`/`List Char`, Python integers
as `ℤ`, and Python floats as exact rationals `ℚ` (the float computations the
claims touch — `3.75`, `3e8`, `1e6`, `np.ceil` — are exact at every input a
claim evaluates, so the rational model agrees with IEEE evaluation there).
Fallible code paths (caught exceptions that make a method return an empty
result) are modelled with `Option`, `none` standing for the logged-and-empty
outcome.
-/

namespace PolarSpec

/-- Latin-1 decoding of a byte buffer, as used by `line.decode("latin1")` and
`image_content[...].decode("latin1")`: each byte becomes the character with
that code point. -/
def latin1 (bs : List ℕ) : List Char := bs.map Char.ofNat

/-- Python whitespace predicate used by `str.split()` and `str.strip()`:
space, tab, newline, carriage return, vertical tab, form feed. -/
def isPyWs (c : Char) : Bool :=
  c = ' ' || c = '\t' || c = '\n' || c = '\r' || c.toNat = 11 || c.toNat = 12

/-- Accumulator worker for `pySplitWhitespace`. -/
def pyWordsAux : List Char → List Char → List (List Char)
  | [], acc => if acc.isEmpty then [] else [acc.reverse]
  | c :: rest, acc =>
    if isPyWs c then
      if acc.isEmpty then pyWordsAux rest [] else acc.reverse :: pyWordsAux rest []
    else pyWordsAux rest (c :: acc)

/-- Python `str.split()` with no arguments: split on runs of whitespace,
discarding empty chunks. -/
def pySplitWhitespace (cs : List Char) : List (List Char) := pyWordsAux cs []

/-- Python `" ".join(text.split())` from `PolarImage._process_header`:
collapse internal whitespace runs to single spaces and trim the ends. -/
def collapseSpaces (cs : List Char) : List Char :=
  List.intercalate [' '] (pySplitWhitespace cs)

/-- Python `str.strip()`: drop whitespace from both ends. -/
def pyStrip (cs : List Char) : List Char :=
  ((cs.dropWhile isPyWs).reverse.dropWhile isPyWs).reverse

/-- Boolean test that `pat` occurs at the very start of `cs` (Python
`bytes.startswith` / the position test inside `bytes.find`). -/
def leadsWith {α : Type} [DecidableEq α] : List α → List α → Bool
  | [], _ => true
  | _ :: _, [] => false
  | p :: ps, c :: cs => if p = c then leadsWith ps cs else false

/-- Python `bytes.find` / `str.find`: index of the first occurrence of `pat`
in the buffer, `none` standing for Python's `-1`. -/
def bfind {α : Type} [DecidableEq α] (pat : List α) : List α → Option ℕ
  | [] => if leadsWith pat ([] : List α) then some 0 else none
  | c :: rest => if leadsWith pat (c :: rest) then some 0 else (bfind pat rest).map (· + 1)

/-- Python `buf.split(b"\r\n")`: split a byte buffer on the two-byte CRLF
line terminator (13, 10).  On an empty buffer Python returns one empty
chunk. -/
def splitCRLF : List ℕ → List (List ℕ)
  | [] => [[]]
  | 13 :: 10 :: rest => [] :: splitCRLF rest
  | b :: rest =>
    match splitCRLF rest with
    | [] => [[b]]
    | l :: ls => (b :: l) :: ls

/-- Tagged Python scalar value as produced by `PolarImage.auto_type`:
integer, float (modelled as an exact rational), boolean, or string. -/
inductive PyValue where
  | int (n : ℤ)
  | float (q : ℚ)
  | bool (b : Bool)
  | str (s : String)
deriving DecidableEq

/-- Decimal value of a digit string, as computed by Python `int` on an
all-digit ASCII string. -/
def digitsToNat (cs : List Char) : ℕ :=
  cs.foldl (fun a c => 10 * a + (c.toNat - 48)) 0

/-- Nonempty and all ASCII decimal digits.  Models Python `str.isdigit()`
restricted to the Latin-1 text this program feeds it. -/
def allDigits (cs : List Char) : Bool := !cs.isEmpty && cs.all Char.isDigit

/-- Python `str.isdigit()` on a string. -/
def pyIsDigit (s : String) : Bool := allDigits s.data

/-- Python `int(str)` on Latin-1 text: optional surrounding whitespace, an
optional sign, then at least one decimal digit; anything else raises
`ValueError`, modelled as `none`.  (Underscore digit grouping and non-ASCII
digits are not exercised by this program and are not modelled.) -/
def int_of_chars (cs : List Char) : Option ℤ :=
  match pyStrip cs with
  | '+' :: ds => if allDigits ds then some ((digitsToNat ds : ℕ) : ℤ) else none
  | '-' :: ds => if allDigits ds then some (-((digitsToNat ds : ℕ) : ℤ)) else none
  | ds => if allDigits ds then some ((digitsToNat ds : ℕ) : ℤ) else none

/-- Take the leading run of decimal digits. -/
def takeDigits (cs : List Char) : List Char × List Char :=
  (cs.takeWhile Char.isDigit, cs.dropWhile Char.isDigit)

/-- Exponent part of a Python float literal, after the `e`/`E`: optional sign
then at least one digit, consuming the whole remainder. -/
def parseExpPart : List Char → Option ℤ
  | '+' :: ds => if allDigits ds then some ((digitsToNat ds : ℕ) : ℤ) else none
  | '-' :: ds => if allDigits ds then some (-((digitsToNat ds : ℕ) : ℤ)) else none
  | ds => if allDigits ds then some ((digitsToNat ds : ℕ) : ℤ) else none

/-- What may follow the mantissa of a float literal: nothing (exponent 0) or
an `e`/`E` exponent part. -/
def parseAfterMantissa : List Char → Option ℤ
  | [] => some 0
  | 'e' :: rest => parseExpPart rest
  | 'E' :: rest => parseExpPart rest
  | _ => none

/-- Exact value of a mantissa written as integer-part digits and
fraction-part digits. -/
def mantissaVal (ip fp : List Char) : ℚ :=
  (digitsToNat ip : ℚ) + (digitsToNat fp : ℚ) / (10 ^ fp.length)

/-- Unsigned Python float literal: `digits [. digits] [exp]`, `. digits
[exp]`, or `digits . [exp]`. -/
def parseUnsignedFloat (cs : List Char) : Option ℚ :=
  let (ip, rest) := takeDigits cs
  match rest with
  | '.' :: rest2 =>
    let (fp, rest3) := takeDigits rest2
    if ip.isEmpty && fp.isEmpty then none
    else (parseAfterMantissa rest3).map (fun e => mantissaVal ip fp * (10 : ℚ) ^ e)
  | [] => if ip.isEmpty then none else some ((digitsToNat ip : ℕ) : ℚ)
  | 'e' :: r => if ip.isEmpty then none else
      (parseExpPart r).map (fun e => (digitsToNat ip : ℚ) * (10 : ℚ) ^ e)
  | 'E' :: r => if ip.isEmpty then none else
      (parseExpPart r).map (fun e => (digitsToNat ip : ℚ) * (10 : ℚ) ^ e)
  | _ => none

/-- Python `float(str)` as used by `PolarImage.auto_type`: strip whitespace,
optional sign, then a float literal; failure (`ValueError`) is `none`.  The
value is kept as an exact rational.  (The `inf`/`nan` spellings and
underscore grouping never occur in these headers and are not modelled.) -/
def floatOfString (s : String) : Option ℚ :=
  match pyStrip s.data with
  | '+' :: r => parseUnsignedFloat r
  | '-' :: r => (parseUnsignedFloat r).map Neg.neg
  | r => parseUnsignedFloat r

/-- Python `str.lower()` on ASCII text. -/
def pyLower (s : String) : String := ⟨s.data.map Char.toLower⟩

/-- Embeds `PolarImage.auto_type` (polar_image.py lines 245-276): try integer
when the string is all digits, then float, then boolean for
case-insensitive true/false, otherwise keep the string. -/
def auto_type (s : String) : PyValue :=
  if pyIsDigit s then PyValue.int ((digitsToNat s.data : ℕ) : ℤ)
  else
    match floatOfString s with
    | some q => PyValue.float q
    | none =>
      if pyLower s = "true" || pyLower s = "false" then
        PyValue.bool (pyLower s == "true")
      else PyValue.str s

/-- One header entry: typed value plus description text (`"N/A"` when the
line carried no `CC` comment). -/
structure HeaderEntry where
  value : PyValue
  description : String
deriving DecidableEq

/-- The header mapping built by `PolarImage._process_header`: insertion-order
association list with dict semantics (later assignment to an existing key
overwrites in place). -/
abbrev Header := List (String × HeaderEntry)

/-- Python dict assignment `d[k] = v` on the insertion-ordered header dict. -/
def dictInsert (k : String) (v : HeaderEntry) (h : Header) : Header :=
  if h.any (fun p => p.1 == k) then h.map (fun p => if p.1 == k then (k, v) else p)
  else h ++ [(k, v)]

/-- Split collapsed text into key and value at the first space,
Python `text.split(" ", maxsplit=1)`; a line with no space raises
`ValueError` and is skipped (`none`). -/
def splitFirstSpace (cs : List Char) : Option (List Char × List Char) :=
  let k := cs.takeWhile (fun c => c != ' ')
  match cs.dropWhile (fun c => c != ' ') with
  | [] => none
  | _ :: rest => some (k, rest)

/-- One loop iteration of `PolarImage._process_header` on a raw header line:
skip comment lines starting with `CC` (67,67) or `**` (42,42), decode
latin-1, collapse whitespace, split into key and value, split off a `CC`
description if present, and type the value with `auto_type`.  `none` means
the line contributes no entry. -/
def parseLine (line : List ℕ) : Option (String × HeaderEntry) :=
  if leadsWith [67, 67] line || leadsWith [42, 42] line then none
  else
    let text := collapseSpaces (latin1 line)
    match splitFirstSpace text with
    | none => none
    | some (key, value) =>
      if value.isEmpty then none
      else
        match bfind ['C', 'C'] value with
        | some i =>
          some (⟨key⟩, { value := auto_type ⟨pyStrip (value.take i)⟩,
                         description := ⟨pyStrip (value.drop (i + 2))⟩ })
        | none =>
          some (⟨key⟩, { value := auto_type ⟨pyStrip value⟩, description := "N/A" })

/-- Embeds `PolarImage._process_header` (lines 89-148): split the header
bytes on CRLF, drop the trailing chunk, fold the surviving lines into the
dict, then add the synthetic `EOH` entry holding the header byte length. -/
def process_header (eoh : ℕ) (headerContent : List ℕ) : Header :=
  let lins := (splitCRLF headerContent).dropLast
  let base := lins.foldl
    (fun d line =>
      match parseLine line with
      | none => d
      | some (k, e) => dictInsert k e d) []
  dictInsert "EOH"
    { value := PyValue.int (eoh : ℤ), description := "End of Header character position" }
    base

/-- The bytes of the `EOH` end-of-header marker. -/
def eohMarker : List ℕ := [69, 79, 72]

/-- Embeds `PolarImage._process_file` (lines 58-87) after the file read:
locate the `EOH` marker (absent marker gives `(None, None)`, modelled
`none`), find the next CRLF after it (Python `find` returns `-1` when
absent, making the end index `eoh_index + 1`), and split the buffer into
header bytes and image bytes at that point. -/
def process_file (content : List ℕ) : Option (List ℕ × List ℕ) :=
  match bfind eohMarker content with
  | none => none
  | some i =>
    let eohEnd :=
      match bfind [13, 10] (content.drop i) with
      | none => i + 1
      | some k => i + k + 2
    some (content.take eohEnd, content.drop eohEnd)

/-- Header state of a session after `PolarImage.__init__` runs its first two
stages (lines 30-40): when `_process_file` finds no `EOH` marker the
constructor returns early and `self.header` keeps its initial empty value;
otherwise the header content (nonempty exactly when truthy) is parsed by
`_process_header` with `self.eoh` equal to the header byte length. -/
def init_header (content : List ℕ) : Header :=
  match process_file content with
  | none => []
  | some (headerContent, _) =>
    if headerContent.isEmpty then [] else process_header headerContent.length headerContent

/-- Embeds `PolarImage.get_image_size` (lines 176-201): read 10 size digits
when the header's `DABIT` equals 12 and 6 otherwise, parse them as an ASCII
decimal integer, and return 0 when parsing raises (the `except ValueError`
branch logs and returns 0). -/
def get_image_size (dabit : Option ℤ) (imageContent : List ℕ) : ℤ :=
  let k : ℕ := if dabit = some 12 then 10 else 6
  match int_of_chars (latin1 (imageContent.take k)) with
  | some n => n
  | none => 0

/-- Embeds `PolarImage._process_image` (lines 150-174): store the parsed
image size, then hand on the image bytes after a FIXED count of 10
prefix bytes (`chars_describing_image_bytes = 10` regardless of `DABIT`).
Returns the pair (stored `image_size`, returned `image_data`). -/
def process_image (dabit : Option ℤ) (imageContent : List ℕ) : ℤ × List ℕ :=
  (get_image_size dabit imageContent, imageContent.drop 10)

/-- Group a byte list into little-endian 16-bit values, the element view of
`np.frombuffer(..., dtype=np.uint16)` on a little-endian host.  A trailing
odd byte is dropped here; `frombuffer_u16` rejects odd lengths first. -/
def pairup : List ℕ → List ℕ
  | a :: b :: rest => (a + 256 * b) :: pairup rest
  | _ => []

/-- `np.frombuffer(buf, dtype=np.uint16)`: fails (ValueError: buffer size
must be a multiple of element size) on an odd byte count. -/
def frombuffer_u16 (bs : List ℕ) : Option (List ℕ) :=
  if bs.length % 2 = 0 then some (pairup bs) else none

/-- Cut a flat element list into `rows` consecutive rows of width `cols`
(row-major, as numpy reshape lays the data out). -/
def toRows (cols : ℕ) : ℕ → List ℕ → List (List ℕ)
  | 0, _ => []
  | r + 1, xs => xs.take cols :: toRows cols r (xs.drop cols)

/-- `ndarray.reshape((rows, cols))`: succeeds exactly when the element count
matches, else raises (modelled `none`). -/
def np_reshape (rows cols : ℕ) (xs : List ℕ) : Option (List (List ℕ)) :=
  if xs.length = rows * cols then some (toRows cols rows xs) else none

/-- Embeds `PolarImage.get_image_array` (lines 278-321).  `fifo` and `dabit`
are the already-int-converted header values, `imageSize` the stored size
prefix value, `imageData` the stored payload bytes.  For `DABIT = 12` the
ray count is the floored quotient `image_size // (2 * fifo)`, the payload
is viewed as little-endian uint16 and masked with `0x0FFF`; for `DABIT = 8`
the ray count is `image_size // fifo` and column 0 of every ray is zeroed;
any other `DABIT` logs `Unsupported DABIT value` and returns an empty
array.  Every raised exception is caught and yields the empty array, both
modelled as `none`.  Non-positive `fifo` (ZeroDivisionError, or a negative
reshape dimension) and a negative ray count are modelled as failure; no
claim exercises a negative size, where numpy's inferred `-1` dimension
could differ. -/
def get_image_array (fifo dabit imageSize : ℤ) (imageData : List ℕ) :
    Option (List (List ℕ)) :=
  if dabit = 12 then
    if fifo ≤ 0 then none
    else
      let rays := imageSize.fdiv (2 * fifo)
      if rays < 0 then none
      else
        match frombuffer_u16 imageData with
        | none => none
        | some elems =>
          (np_reshape rays.toNat fifo.toNat elems).map
            (fun m => m.map (fun row => row.map (fun x => x &&& 0x0FFF)))
  else if dabit = 8 then
    if fifo ≤ 0 then none
    else
      let rays := imageSize.fdiv fifo
      if rays < 0 then none
      else
        (np_reshape rays.toNat fifo.toNat imageData).map
          (fun m => m.map (fun row => row.set 0 0))
  else none

/-- Embeds the near-range blanking width of `PolarImage.render` (lines
370-378): when `SFREQ == 40` use the hard-coded 3.75 m/pixel (15/4 exactly,
so `np.ceil` agrees with the rational ceiling at every integer input),
otherwise derive meters per pixel from `c = 3e8` and the sampling frequency
in MHz. -/
def pixels_to_omit (sfreq sdrng : ℤ) : ℤ :=
  if sfreq = 40 then ⌈(sdrng : ℚ) / (15 / 4)⌉ * 2
  else ⌈(sdrng : ℚ) / ((3 * 10 ^ 8 : ℚ) / (2 * (sfreq : ℚ) * 10 ^ 6))⌉ * 2

/-- Mutable state of a decode session that `render` touches: the stored
sample matrix plus the already-int-converted header fields it reads
(`int(self.get("SFREQ"))`, `int(self.get("SDRNG"))`, `DABIT`,
`int(2 * BO2RA)` is reconstructed from `bo2ra`). -/
structure Session where
  image_array : List (List ℕ)
  sfreq : ℤ
  sdrng : ℤ
  dabit : ℤ
  bo2ra : ℤ
deriving DecidableEq

/-- The figure `render` returns, up to the black-box rasterizer: the matrix
handed to `pcolormesh` (whose row count and row width also determine the
angle and radius axes), the angular direction, the angular offset (recorded
in degrees — `np.deg2rad` is injective, so figure equality is preserved),
and the colormap. -/
structure PolarFig where
  matrix : List (List ℕ)
  thetaDir : ℤ
  thetaOffsetDeg : ℚ
  cmap : String
deriving DecidableEq

/-- Embeds `PolarImage.render` (lines 356-425) as a state transformer: it
prepends `pixels_to_omit` columns of maximum brightness (4095 for
`DABIT == 12`, else 255) to the STORED matrix via
`self.image_array = np.concatenate(...)` and then builds the polar figure
from that mutated matrix.  Returns (updated session, figure).
`PolarImage.saveto` (line 446) and `PolarImage.save_with_metadata`
(line 469) both call this with `orient=True, toggle_direction=False`. -/
def render (s : Session) (orient toggleDir : Bool) (cmap : String) :
    Session × PolarFig :=
  let p := (pixels_to_omit s.sfreq s.sdrng).toNat
  let hb : ℕ := if s.dabit = 12 then 4095 else 255
  let arr := s.image_array.map (fun row => List.replicate p hb ++ row)
  ({ s with image_array := arr },
   { matrix := arr,
     thetaDir := if toggleDir then -1 else 1,
     thetaOffsetDeg := if orient then -(2 * (s.bo2ra : ℚ)) else 90,
     cmap := cmap })

/-- JSON values as produced and consumed by Python's `json.dumps` /
`json.loads` on a header dict (the constructors this codec can reach:
objects, strings, booleans, integers and floats — floats kept exact, since
`repr` round-trips Python floats through JSON text exactly). -/
inductive Json where
  | jbool (b : Bool)
  | jint (n : ℤ)
  | jnum (q : ℚ)
  | jstr (s : String)
  | jobj (fields : List (String × Json))

/-- JSON encoding of one typed header value. -/
def encodeValue : PyValue → Json
  | PyValue.int n => Json.jint n
  | PyValue.float q => Json.jnum q
  | PyValue.bool b => Json.jbool b
  | PyValue.str s => Json.jstr s

/-- Reading a JSON scalar back as the typed header value `json.loads`
produces. -/
def decodeValue : Json → Option PyValue
  | Json.jint n => some (PyValue.int n)
  | Json.jnum q => some (PyValue.float q)
  | Json.jbool b => some (PyValue.bool b)
  | Json.jstr s => some (PyValue.str s)
  | _ => none

/-- JSON encoding of one header entry, the inner
`{"value": ..., "description": ...}` object. -/
def encodeEntry (e : HeaderEntry) : Json :=
  Json.jobj [("value", encodeValue e.value), ("description", Json.jstr e.description)]

/-- Reading one `{"value": ..., "description": ...}` object back. -/
def decodeEntry : Json → Option HeaderEntry
  | Json.jobj [("value", v), ("description", Json.jstr d)] =>
    (decodeValue v).map (fun pv => { value := pv, description := d })
  | _ => none

/-- `json.dumps(self.header)` up to JSON text transport: the header dict as
a JSON object in insertion order (polar_image.py line 484). -/
def json_dumps_header (h : Header) : Json :=
  Json.jobj (h.map (fun kv => (kv.1, encodeEntry kv.2)))

/-- Read every field of a header JSON object back into an entry; any
malformed field fails the whole load. -/
def decodeFields : List (String × Json) → Option Header
  | [] => some []
  | kv :: rest =>
    match decodeEntry kv.2, decodeFields rest with
    | some e, some t => some ((kv.1, e) :: t)
    | _, _ => none

/-- `json.loads` of an embedded payload back into a header
(PolarImageInspector.py line 175). -/
def json_loads_header : Json → Option Header
  | Json.jobj fields => decodeFields fields
  | _ => none

/-- Output raster: pixel buffer plus named auxiliary text fields (the PNG
`tEXt` chunks PIL's `PngInfo` writes and `img.text` reads back). -/
structure Raster where
  pixels : List (List ℕ)
  textFields : List (String × Json)

/-- Embeds the metadata path of `PolarImage.save_with_metadata` (lines
482-489): serialize the session header and attach it to the raster under
the named text field `json_data`. -/
def save_with_metadata (h : Header) (figPixels : List (List ℕ)) : Raster :=
  { pixels := figPixels, textFields := [("json_data", json_dumps_header h)] }

/-- Embeds the PNG branch of `PolarImageInspector.open_image` (lines
172-175): read the `json_data` text field of a previously rendered raster
and deserialize it directly into a header, without re-running the parser or
decoder (a missing field raises `KeyError`, modelled `none`). -/
def open_image_metadata (r : Raster) : Option Header :=
  match r.textFields.lookup "json_data" with
  | some j => json_loads_header j
  | none => none

/-!
Claim theorems.
-/

/-- C4: `auto_type` tries coercions in the exact order integer (all-digit
string), float, boolean (case-insensitive true/false), else string; every
all-digit string yields an integer (hence never a float), and the four
concrete examples coerce as stated. -/
theorem auto_type_coercion_order :
    (∀ s : String, pyIsDigit s = true →
      auto_type s = PyValue.int ((digitsToNat s.data : ℕ) : ℤ)) ∧
    auto_type "123" = PyValue.int 123 ∧
    auto_type "12.5" = PyValue.float (25 / 2) ∧
    auto_type "true" = PyValue.bool true ∧
    auto_type "abc" = PyValue.str "abc" := by
  refine ⟨fun s h => by simp [auto_type, h], by decide, ?_, by decide, by decide⟩
  simp [auto_type, pyIsDigit, allDigits, floatOfString, pyStrip, isPyWs,
        parseUnsignedFloat, takeDigits, parseAfterMantissa, mantissaVal, digitsToNat]
  norm_num

/-- Witness for C4: the all-digit hypothesis holds at `"0042"` and the
theorem evaluates there. -/
theorem auto_type_coercion_order_witness :
    pyIsDigit "0042" = true ∧
    auto_type "0042" = PyValue.int ((digitsToNat "0042".data : ℕ) : ℤ) :=
  ⟨by decide, auto_type_coercion_order.1 "0042" (by decide)⟩

/-- C6: a header whose `DABIT` value is neither 8 nor 12 makes
`get_image_array` return the empty matrix (the logged
`Unsupported DABIT value` branch), for every fifo, stored size and payload
— no best-effort layout guess. -/
theorem unsupported_dabit_returns_empty (fifo dabit imageSize : ℤ)
    (imageData : List ℕ) (h8 : dabit ≠ 8) (h12 : dabit ≠ 12) :
    get_image_array fifo dabit imageSize imageData = none := by
  simp [get_image_array, h8, h12]

/-- Witness for C6: evaluated at `DABIT = 4`. -/
theorem unsupported_dabit_returns_empty_witness :
    get_image_array 512 4 1024 [1, 2, 3] = none :=
  unsupported_dabit_returns_empty 512 4 1024 [1, 2, 3] (by decide) (by decide)

/-- C8: the near-range blanking width is
`ceil(SDRNG / 3.75) * 2` when `SFREQ = 40` and otherwise
`ceil(SDRNG / (3e8 / (2 * SFREQ * 1e6))) * 2`; in particular
`SFREQ = 40, SDRNG = 15` gives 8 omitted pixels. -/
theorem pixels_to_omit_formula :
    (∀ sdrng : ℤ, pixels_to_omit 40 sdrng = ⌈(sdrng : ℚ) / (15 / 4)⌉ * 2) ∧
    (∀ sfreq sdrng : ℤ, sfreq ≠ 40 →
      pixels_to_omit sfreq sdrng
        = ⌈(sdrng : ℚ) / ((3 * 10 ^ 8 : ℚ) / (2 * (sfreq : ℚ) * 10 ^ 6))⌉ * 2) ∧
    pixels_to_omit 40 15 = 8 := by
  refine ⟨fun sdrng => by simp [pixels_to_omit],
          fun sfreq sdrng h => by simp [pixels_to_omit, h], ?_⟩
  norm_num [pixels_to_omit]

/-- Witness for C8: the non-40 branch evaluated at `SFREQ = 60`. -/
theorem pixels_to_omit_formula_witness :
    pixels_to_omit 60 15
      = ⌈(15 : ℚ) / ((3 * 10 ^ 8 : ℚ) / (2 * (60 : ℚ) * 10 ^ 6))⌉ * 2 := by
  have h := pixels_to_omit_formula.2.1 60 15 (by decide)
  simpa using h

/-- Byte buffer exhibiting the `DABIT = 8` payload-offset divergence: the
6-digit ASCII size prefix `000016` followed by exactly 16 payload bytes. -/
def dabit8Region : List ℕ := [48, 48, 48, 48, 49, 54] ++ List.replicate 16 7

/-- C1 (code bug): with `DABIT = 8` the size prefix is parsed from the first
6 bytes of the image region (`get_image_size`), but `_process_image` strips
a FIXED 10 bytes, so the payload handed on for reshaping is
`imageRegion[10:]` (here 12 bytes), not `imageRegion[sizeDigits:] =
imageRegion[6:]` (here all 16 payload bytes) as the size-prefix width
dictates — the prefix width and the payload offset do not agree. -/
theorem process_image_fixed_offset_dabit8 :
    get_image_size (some 8) dabit8Region = 16 ∧
    process_image (some 8) dabit8Region = (16, dabit8Region.drop 10) ∧
    dabit8Region.drop 10 ≠ dabit8Region.drop 6 ∧
    (dabit8Region.drop 10).length = 12 :=
  ⟨by decide, by decide, by decide, by decide⟩

/-- Image region whose 10-byte size prefix `ABCDEFGHIJ` is not numeric,
followed by two payload bytes. -/
def badSizeRegion : List ℕ := [65, 66, 67, 68, 69, 70, 71, 72, 73, 74] ++ [1, 2]

/-- C3 counterexample: a non-numeric size prefix does not stop decoding —
`get_image_size` returns the defaulted size 0 (the `except ValueError`
branch) and `_process_image` proceeds, still handing the post-offset bytes
onward, contradicting the claim that no defaulted or zero image size is
used. -/
theorem get_image_size_nonnumeric_counterexample :
    get_image_size (some 12) badSizeRegion = 0 ∧
    process_image (some 12) badSizeRegion = (0, [1, 2]) :=
  ⟨by decide, by decide⟩

/-- C3 amended: for every image region whose size prefix is not an ASCII
decimal integer, `get_image_size` logs the failure and returns the default
0, and `_process_image` proceeds with that zero size, returning the bytes
after its fixed 10-byte offset; no dedicated size-prefix error exists. -/
theorem get_image_size_nonnumeric_defaults_zero (dabit : Option ℤ)
    (region : List ℕ)
    (h : int_of_chars (latin1 (region.take (if dabit = some 12 then 10 else 6))) = none) :
    get_image_size dabit region = 0 ∧
    process_image dabit region = (0, region.drop 10) := by
  have hz : get_image_size dabit region = 0 := by
    simp only [get_image_size]
    rw [h]
  exact ⟨hz, by simp [process_image, hz]⟩

/-- Witness for the amended C3: evaluated at a `DABIT = 8` region whose
6-byte prefix reads `XY`. -/
theorem get_image_size_nonnumeric_defaults_zero_witness :
    get_image_size (some 8) [88, 89] = 0 ∧
    process_image (some 8) [88, 89] = (0, List.drop 10 [88, 89]) :=
  get_image_size_nonnumeric_defaults_zero (some 8) [88, 89] (by decide)

/-- When the `EOH` marker occurs at no position of the buffer, `bfind`
reports no index (Python `find` returns `-1`).  Positions at or beyond the
buffer length need no hypothesis: the three-byte marker never starts in the
empty suffix. -/
theorem bfind_eohMarker_eq_none (content : List ℕ)
    (h : ∀ i < content.length, leadsWith eohMarker (content.drop i) = false) :
    bfind eohMarker content = none := by
  induction content with
  | nil => decide
  | cons c rest ih =>
    have h0 : leadsWith eohMarker (c :: rest) = false := h 0 (by simp)
    have ih' : bfind eohMarker rest = none := by
      apply ih
      intro i hi
      have hx := h (i + 1) (by simpa using Nat.succ_lt_succ hi)
      simpa using hx
    simp [bfind, h0, ih']

/-- C5: an input buffer that nowhere contains the `EOH` marker bytes makes
`_process_file` return nothing, and the session constructor then leaves the
header empty — no garbage or part-built entries are produced and the
pipeline never reaches image decoding. -/
theorem missing_eoh_empty_header (content : List ℕ)
    (h : ∀ i < content.length, leadsWith eohMarker (content.drop i) = false) :
    process_file content = none ∧ init_header content = [] := by
  have hb := bfind_eohMarker_eq_none content h
  exact ⟨by simp [process_file, hb], by simp [init_header, process_file, hb]⟩

/-- Witness for C5: a buffer starting with `EO` but containing no full
`EOH` marker. -/
theorem missing_eoh_empty_header_witness :
    process_file [69, 79, 1, 2, 3] = none ∧ init_header [69, 79, 1, 2, 3] = [] :=
  missing_eoh_empty_header [69, 79, 1, 2, 3] (by decide)

/-- Scalar JSON round trip for one typed header value. -/
theorem decodeValue_encodeValue (v : PyValue) :
    decodeValue (encodeValue v) = some v := by
  cases v <;> rfl

/-- Entry-level JSON round trip: value and description both survive. -/
theorem decodeEntry_encodeEntry (e : HeaderEntry) :
    decodeEntry (encodeEntry e) = some e := by
  cases e with
  | mk v d => cases v <;> rfl

/-- Decoding the encoded field list reproduces the header entries. -/
theorem decodeFields_encoded (t : Header) :
    decodeFields (t.map (fun kv => (kv.1, encodeEntry kv.2))) = some t := by
  induction t with
  | nil => rfl
  | cons kv t ih => simp [decodeFields, decodeEntry_encodeEntry, ih]

/-- Serializing a header with `json.dumps` and reading it back with
`json.loads` reproduces the header exactly. -/
theorem json_loads_dumps_header (h : Header) :
    json_loads_header (json_dumps_header h) = some h := by
  simp [json_dumps_header, json_loads_header, decodeFields_encoded]

/-- C9: a header embedded into the output raster by the metadata codec and
then extracted from the raster's named `json_data` text field — without
re-running the parser or decoder — equals the original header in every
key's value and description (the float model is exact, so tolerance
comparison is satisfied a fortiori). -/
theorem metadata_roundtrip (h : Header) (figPixels : List (List ℕ)) :
    open_image_metadata (save_with_metadata h figPixels) = some h := by
  simp [open_image_metadata, save_with_metadata, List.lookup,
        json_loads_dumps_header]

/-- Pairing a byte list into 16-bit values halves the length (a trailing
odd byte would be dropped, matching the floored quotient). -/
theorem pairup_length : ∀ bs : List ℕ, (pairup bs).length = bs.length / 2
  | [] => rfl
  | [_] => by simp [pairup]
  | _ :: _ :: rest => by
    simp [pairup, pairup_length rest]
    omega

/-- Reshaping always produces the requested number of rows. -/
theorem toRows_length (cols : ℕ) :
    ∀ (r : ℕ) (xs : List ℕ), (toRows cols r xs).length = r
  | 0, _ => rfl
  | r + 1, xs => by simp [toRows, toRows_length cols r]

/-- With an exactly matching element count, every reshaped row has the
requested width. -/
theorem toRows_row_length (cols : ℕ) :
    ∀ (r : ℕ) (xs : List ℕ), xs.length = r * cols →
      ∀ row ∈ toRows cols r xs, row.length = cols
  | 0, _, _ => by simp [toRows]
  | r + 1, xs, h => by
    intro row hrow
    simp only [toRows, List.mem_cons] at hrow
    rcases hrow with hrow | hrow
    · subst hrow
      rw [List.length_take]
      have hle : cols ≤ xs.length := by rw [h, Nat.succ_mul]; omega
      omega
    · exact toRows_row_length cols r (xs.drop cols)
        (by rw [List.length_drop, h, Nat.succ_mul]; omega) row hrow

/-- Floor division transported from `ℤ` back to `ℕ`: on natural operands
Python's `//` (`Int.fdiv`) is ordinary natural division. -/
theorem fdiv_natCast (m n : ℕ) : (m : ℤ).fdiv (n : ℤ) = ((m / n : ℕ) : ℤ) := by
  rw [Int.fdiv_eq_ediv _ (Int.natCast_nonneg n)]
  exact (Int.ofNat_ediv m n).symm

/-- C7: whenever a `DABIT = 8` decode succeeds, the head of every ray of the
resulting matrix is 0 (`image_array[:, 0] = 0`), and the matrix is exactly
the raw reshaped payload with only column 0 overwritten — no mask touches
the remaining elements. -/
theorem dabit8_column0_zero (N size : ℕ) (data : List ℕ) (hN : 0 < N)
    (m : List (List ℕ))
    (h : get_image_array (N : ℤ) 8 (size : ℤ) data = some m) :
    m.map List.head? = List.replicate m.length (some 0) ∧
    ∃ m₀, np_reshape (size / N) N data = some m₀ ∧
      m = m₀.map (fun row => row.set 0 0) := by
  have h812 : ¬((8 : ℤ) = 12) := by decide
  have hf : ¬((N : ℤ) ≤ 0) := by omega
  rw [get_image_array, if_neg h812, if_pos rfl, if_neg hf, fdiv_natCast] at h
  have hnn : ¬(((size / N : ℕ) : ℤ) < 0) := not_lt.mpr (Int.natCast_nonneg _)
  rw [if_neg hnn] at h
  simp only [Int.toNat_ofNat] at h
  rw [Option.map_eq_some'] at h
  obtain ⟨m₀, hm₀, hmap⟩ := h
  refine ⟨?_, m₀, hm₀, hmap.symm⟩
  have hrows : ∀ row ∈ m₀, row.length = N := by
    rw [np_reshape] at hm₀
    by_cases hc : data.length = (size / N) * N
    · rw [if_pos hc] at hm₀
      cases hm₀
      exact toRows_row_length N (size / N) data hc
    · rw [if_neg hc] at hm₀
      cases hm₀
  subst hmap
  rw [List.eq_replicate_iff]
  refine ⟨by simp, ?_⟩
  intro b hb
  rw [List.map_map, List.mem_map] at hb
  obtain ⟨row, hrow, rfl⟩ := hb
  have hlen : row.length = N := hrows row hrow
  cases row with
  | nil => simp at hlen; omega
  | cons a t => simp

/-- Witness for C7: a 4-byte payload, `FIFO = 2`, decoded into two rays
whose heads are both forced to 0. -/
theorem dabit8_column0_zero_witness :
    ([[0, 6], [0, 8]] : List (List ℕ)).map List.head?
      = List.replicate ([[0, 6], [0, 8]] : List (List ℕ)).length (some 0) :=
  (dabit8_column0_zero 2 4 [5, 6, 7, 8] (by decide) [[0, 6], [0, 8]]
    (by decide)).1

/-- C2: for a `DABIT = 12` capture with `FIFO = N > 0` whose payload holds
exactly `imageByteCount` bytes (the well-formed shape of the external
format): when `imageByteCount` is not an exact multiple of `2 * N` the
decode fails with the empty matrix (the floored ray count makes the uint16
view or the reshape raise, which `get_image_array` catches — nothing is
silently floored), and otherwise the decoded matrix has exactly
`imageByteCount / (2 * N)` rays of `N` samples each, every sample at most
4095 after the `0x0FFF` mask. -/
theorem dabit12_decode_spec (N size : ℕ) (data : List ℕ) (hN : 0 < N)
    (hlen : data.length = size) :
    (size % (2 * N) ≠ 0 → get_image_array (N : ℤ) 12 (size : ℤ) data = none) ∧
    (size % (2 * N) = 0 → ∃ m,
      get_image_array (N : ℤ) 12 (size : ℤ) data = some m ∧
      m.length = size / (2 * N) ∧
      (∀ row ∈ m, row.length = N) ∧
      (∀ row ∈ m, ∀ x ∈ row, x ≤ 4095)) := by
  have hf : ¬((N : ℤ) ≤ 0) := by omega
  have hcast : (2 : ℤ) * (N : ℤ) = ((2 * N : ℕ) : ℤ) := by push_cast; ring
  have hkey : get_image_array (N : ℤ) 12 (size : ℤ) data
      = (match frombuffer_u16 data with
         | none => none
         | some elems =>
           (np_reshape (size / (2 * N)) N elems).map
             (fun m => m.map (fun row => row.map (fun x => x &&& 0x0FFF)))) := by
    rw [get_image_array, if_pos rfl, if_neg hf, hcast, fdiv_natCast,
        if_neg (not_lt.mpr (Int.natCast_nonneg _))]
    simp only [Int.toNat_ofNat]
  have e1 := Nat.div_add_mod size (2 * N)
  constructor
  · intro hr
    by_cases hpar : data.length % 2 = 0
    · have hsz2 : size % 2 = 0 := by rw [← hlen]; exact hpar
      have e2 : 2 * (N * (size / (2 * N))) + size % (2 * N) = size := by
        rw [← Nat.mul_assoc]; exact e1
      have hne : size / 2 ≠ (size / (2 * N)) * N := by
        rw [Nat.mul_comm]
        generalize N * (size / (2 * N)) = T at e2
        generalize size % (2 * N) = r at e2 hr
        omega
      rw [hkey]
      simp only [frombuffer_u16, if_pos hpar]
      simp only [np_reshape, pairup_length, hlen]
      rw [if_neg hne]
      rfl
    · rw [hkey]
      simp only [frombuffer_u16, if_neg hpar]
  · intro hr
    rw [hr, Nat.add_zero] at e1
    have hsz2 : size % 2 = 0 := by
      rw [← e1, Nat.mul_assoc]
      exact Nat.mul_mod_right 2 _
    have hpar : data.length % 2 = 0 := by rw [hlen]; exact hsz2
    have e2 : 2 * (N * (size / (2 * N))) = size := by rw [← Nat.mul_assoc]; exact e1
    have hcond : size / 2 = (size / (2 * N)) * N := by
      rw [Nat.mul_comm]
      generalize N * (size / (2 * N)) = T at e2
      omega
    refine ⟨(toRows N (size / (2 * N)) (pairup data)).map
        (fun row => row.map (fun x => x &&& 0x0FFF)), ?_, ?_, ?_, ?_⟩
    · rw [hkey]
      simp only [frombuffer_u16, if_pos hpar]
      simp only [np_reshape, pairup_length, hlen]
      rw [if_pos hcond]
      rfl
    · simp [toRows_length]
    · intro row hrow
      rw [List.mem_map] at hrow
      obtain ⟨row₀, hrow₀, rfl⟩ := hrow
      rw [List.length_map]
      exact toRows_row_length N (size / (2 * N)) (pairup data)
        (by rw [pairup_length, hlen]; exact hcond) row₀ hrow₀
    · intro row hrow x hx
      rw [List.mem_map] at hrow
      obtain ⟨row₀, _, rfl⟩ := hrow
      rw [List.mem_map] at hx
      obtain ⟨y, _, rfl⟩ := hx
      exact Nat.and_le_right

/-- Witness for C2: ten payload bytes with `N = 3` (10 is not a multiple of
6), so the decode fails. -/
theorem dabit12_decode_spec_witness :
    get_image_array ((3 : ℕ) : ℤ) 12 ((10 : ℕ) : ℤ)
      [0, 1, 2, 3, 4, 5, 6, 7, 8, 9] = none :=
  (dabit12_decode_spec 3 10 [0, 1, 2, 3, 4, 5, 6, 7, 8, 9]
    (by decide) (by decide)).1 (by decide)

/-- Width of the stored matrix, read off the first row (numpy arrays are
rectangular, and `toRows`-produced matrices have equal row lengths). -/
def matrixWidth (m : List (List ℕ)) : ℕ := (m.head?.map List.length).getD 0

/-- A decode session whose header has `SFREQ = 40` and `SDRNG = 0`. -/
def sdrngZeroSession : Session :=
  { image_array := [[1]], sfreq := 40, sdrng := 0, dabit := 12, bo2ra := 0 }

/-- C10 counterexample: with `SDRNG = 0` (and `SFREQ = 40`) the blanking
width is `ceil(0 / 3.75) * 2 = 0`, so `render` prepends nothing: the
stored matrix is unchanged and two successive render calls operate on
matrices of the SAME width and return EQUAL figures — refuting the claim
that EVERY pair of successive render calls sees different widths and
produces different rasters. -/
theorem render_sdrng_zero_counterexample :
    (render sdrngZeroSession true false "Greys_r").1.image_array
        = sdrngZeroSession.image_array ∧
    (render ((render sdrngZeroSession true false "Greys_r").1) true false
        "Greys_r").2
      = (render sdrngZeroSession true false "Greys_r").2 := by
  have hp : pixels_to_omit 40 0 = 0 := by norm_num [pixels_to_omit]
  constructor
  · simp [render, sdrngZeroSession, hp]
  · simp [render, sdrngZeroSession, hp]

/-- C10 amended: `render` is not read-only — it permanently prepends
`pixelsToOmit` columns of maximum brightness to the session's stored
matrix, and whenever that width is positive (any `SDRNG > 0` with
`SFREQ = 40`, for instance) and the matrix is nonempty, a second render
call (e.g. `saveto` followed by `save_with_metadata`, which both call
`render`) operates on a strictly wider matrix and returns a different
figure. -/
theorem render_mutates_stored_matrix (s : Session) (orient toggleDir : Bool)
    (cmap : String) (hp : 0 < pixels_to_omit s.sfreq s.sdrng)
    (hne : s.image_array ≠ []) :
    ((render s orient toggleDir cmap).1.image_array
        = s.image_array.map (fun row =>
            List.replicate (pixels_to_omit s.sfreq s.sdrng).toNat
              (if s.dabit = 12 then 4095 else 255) ++ row)) ∧
    matrixWidth (render s orient toggleDir cmap).1.image_array
        = matrixWidth s.image_array + (pixels_to_omit s.sfreq s.sdrng).toNat ∧
    matrixWidth (render s orient toggleDir cmap).1.image_array
        ≠ matrixWidth s.image_array ∧
    (render ((render s orient toggleDir cmap).1) orient toggleDir cmap).2
        ≠ (render s orient toggleDir cmap).2 := by
  obtain ⟨r0, rest, harr⟩ : ∃ a l, s.image_array = a :: l := by
    cases hx : s.image_array with
    | nil => exact absurd hx hne
    | cons a l => exact ⟨a, l, rfl⟩
  have hpn : 0 < (pixels_to_omit s.sfreq s.sdrng).toNat := by omega
  refine ⟨rfl, ?_, ?_, ?_⟩
  · simp [render, matrixWidth, harr, Nat.add_comm]
  · simp [render, matrixWidth, harr]
    omega
  · intro heq
    have hm := congrArg (fun f => matrixWidth f.matrix) heq
    simp [render, matrixWidth, harr] at hm
    omega

/-- Witness for the amended C10: a 1-by-2 session with `SFREQ = 40`,
`SDRNG = 15` (blanking width 8). -/
theorem render_mutates_stored_matrix_witness :
    matrixWidth (render ⟨[[1, 2]], 40, 15, 12, 0⟩ true false "Greys_r").1.image_array
      ≠ matrixWidth (⟨[[1, 2]], 40, 15, 12, 0⟩ : Session).image_array :=
  (render_mutates_stored_matrix ⟨[[1, 2]], 40, 15, 12, 0⟩ true false "Greys_r"
    (by norm_num [pixels_to_omit]) (by decide)).2.2.1

end PolarSpec
